import Mathlib

/-!
Verification of the plugin registry implemented in
internal/pkg/plugin/binary.go.

The registry operates on a file system rooted at a configured directory
(the package-level rootDir).  We embed the file system shallowly as an
association list from paths to entries; a path (and likewise a plugin
name) is modelled as its sequence of characters, with the slash as the
path separator.  Pure helper functions of the source (effective-name
resolution, the glob pattern of List, pluginIDFromName) are translated
directly; the Meta methods (install, uninstall, enable, disable,
imageName) and the loaders loadMetaByName and loadMetaByFilename live in
a file of the repository that is not part of the given sources, so they
are modelled from the specification, as marked on each definition.

Mutating operations take the file system as an explicit argument and
return the resulting file system together with a Go-style error result;
an operation that fails before writing returns its input file system
unchanged.
-/

namespace Plugin

/-- A file-system path (and a plugin name), modelled as its sequence of
characters. -/
abbrev Path := List Char

/-- The path separator character. -/
def sep : Char := '/'

/-- The registry root directory: the package-level rootDir under which
every installed plugin lives. -/
def rootDir : Path := "/plugins".data

/-- The plugin manifest embedded in a plugin image, reduced to the one
field this package reads (its declared name). -/
structure Manifest where
  Name : Path
deriving DecidableEq

/-- The zero value of Manifest, returned by Inspect together with every
error. -/
def zeroManifest : Manifest := ⟨[]⟩

/-- Contents of a regular file in the modelled file system.
metaData is a well-formed serialized Meta record; corrupt is a file that
neither parses as a Meta record nor loads as a container image; image is
a loadable container image carrying its plugin-validity flag and its
manifest; binaryObject and configFile are the artifacts written by a
plugin installation. -/
inductive Content
  | metaData (name : Path) (enabled : Bool)
  | corrupt
  | image (isPlugin : Bool) (manifest : Manifest)
  | binaryObject
  | configFile
deriving DecidableEq

/-- Kind of a file as reported by stat: a regular file or something
else (directory, device, ...). -/
inductive FileKind
  | regular
  | irregular
deriving DecidableEq

/-- State of one path in the file system: absent (stat fails with a
does-not-exist error), denied (the name is listed in its directory but
stat fails with some other error), or present with a kind and, for
regular files, a content. -/
inductive FSEntry
  | absent
  | denied
  | present (kind : FileKind) (content : Content)
deriving DecidableEq

/-- The file system: an association list from paths to entries.  Paths
missing from the list are absent. -/
abbrev FS := List (Path × FSEntry)

/-- Look up the entry stored at a path (first match; absent if none). -/
def FS.get : FS → Path → FSEntry
  | [], _ => .absent
  | (q, e) :: rest, p => if q = p then e else FS.get rest p

/-- Delete every binding of a path. -/
def FS.remove : FS → Path → FS
  | [], _ => []
  | (q, e) :: rest, p =>
    if q = p then FS.remove rest p else (q, e) :: FS.remove rest p

/-- Overwrite the entry at a path. -/
def FS.set (fs : FS) (p : Path) (e : FSEntry) : FS :=
  (p, e) :: FS.remove fs p

/-- Error taxonomy of the registry operations. -/
inductive PluginError
  | loadError
  | notAPlugin
  | notFound
  | ioError
deriving DecidableEq

/-- The Meta struct of the source: the registered name of an installed
plugin and its enabled flag. -/
structure Meta where
  Name : Path
  Enabled : Bool
deriving DecidableEq

/-- pathFromName of binary.go: the partial path for the plugin relative
to the installation directory; filepath.FromSlash is the identity when
the host separator is the slash. -/
def pathFromName (name : Path) : Path := name

/-- Modelled from the spec: the metadata file of a plugin is
fragment.meta under the registry root, where the fragment is the name
taken as a relative path. -/
def metaFilePath (name : Path) : Path :=
  rootDir ++ [sep] ++ pathFromName name ++ ".meta".data

/-- Modelled from the spec: the copied source image sits at the fragment
path under the registry root. -/
def imageCopyPath (name : Path) : Path :=
  rootDir ++ [sep] ++ pathFromName name

/-- Modelled from the spec: the extracted binary object lives under the
installation path of the fragment. -/
def binaryObjectPath (name : Path) : Path :=
  imageCopyPath name ++ "/object".data

/-- Modelled from the spec: the generated default configuration file
lives under the installation path of the fragment. -/
def configFilePath (name : Path) : Path :=
  imageCopyPath name ++ "/config".data

/-- The glob pattern used by List, as a predicate on a full path: the
path must consist of the registry root, a separator, and a base name
that contains no separator and ends in the fixed metadata-file suffix
(the star of the pattern matches any run of non-separator characters). -/
def MetaPatternP (p : Path) : Prop :=
  (rootDir ++ [sep]) <+: p
  ∧ sep ∉ p.drop (rootDir.length + 1)
  ∧ ".meta".data <:+ p.drop (rootDir.length + 1)

instance (p : Path) : Decidable (MetaPatternP p) := by
  unfold MetaPatternP; infer_instance

/-- sif.LoadContainer: opening a path as a container image succeeds
exactly when the path is a regular file holding a loadable image. -/
def loadContainer (fs : FS) (p : Path) : Except PluginError Content :=
  match fs.get p with
  | .present .regular (.image isPlugin manifest) =>
    .ok (.image isPlugin manifest)
  | _ => .error .loadError

/-- isPluginFile of the image adapter: whether the loaded image carries
the recognized plugin descriptor. -/
def isPluginFile : Content → Bool
  | .image isPlugin _ => isPlugin
  | _ => false

/-- getManifest of the image adapter: the manifest embedded in a loaded
image (zero value on other contents, on which the source never calls
it). -/
def getManifest : Content → Manifest
  | .image _ manifest => manifest
  | _ => zeroManifest

/-- Modelled from the spec: loadMetaByFilename reads and parses the
metadata file at the given path; any entry that is not a readable
regular file holding a well-formed record fails to load. -/
def loadMetaByFilename (fs : FS) (p : Path) : Except PluginError Meta :=
  match fs.get p with
  | .present .regular (.metaData n e) => .ok ⟨n, e⟩
  | _ => .error .ioError

/-- Modelled from the spec: loadMetaByName resolves a Metadata Record by
name, reading the metadata file at the path derived from the name;
absent or unreadable entries yield NotFound. -/
def loadMetaByName (fs : FS) (name : Path) : Except PluginError Meta :=
  match fs.get (metaFilePath name) with
  | .present .regular (.metaData n e) => .ok ⟨n, e⟩
  | _ => .error .notFound

/-- Effective-name resolution of Install (lines 41 to 43 of binary.go):
the manifest-declared name is used only when the name argument is the
empty string. -/
def effectiveName (name manifestName : Path) : Path :=
  if name = [] then manifestName else name

/-- The fresh Metadata Record built by Install (lines 45 to 50 of
binary.go): the effective name, with the Enabled flag set. -/
def freshMeta (name manifestName : Path) : Meta :=
  { Name := effectiveName name manifestName, Enabled := true }

/-- Modelled from the spec: Meta.install copies the source image
verbatim to the image-copy location, extracts the binary object, writes
a default configuration artifact, and finally serializes the record to
the metadata file. -/
def Meta.install (fs : FS) (m : Meta) (src : Content) : FS :=
  let fs1 := fs.set (imageCopyPath m.Name) (.present .regular src)
  let fs2 := fs1.set (binaryObjectPath m.Name) (.present .regular .binaryObject)
  let fs3 := fs2.set (configFilePath m.Name) (.present .regular .configFile)
  fs3.set (metaFilePath m.Name) (.present .regular (.metaData m.Name m.Enabled))

/-- Modelled from the spec: Meta.uninstall removes the metadata file,
the image copy, the extracted binary object and the generated
configuration artifact, keyed by the own name of the record; missing
files are not fatal. -/
def Meta.uninstall (fs : FS) (m : Meta) : FS :=
  (((fs.remove (metaFilePath m.Name)).remove
      (imageCopyPath m.Name)).remove
      (binaryObjectPath m.Name)).remove
      (configFilePath m.Name)

/-- Modelled from the spec: Meta.enable sets the Enabled flag and
rewrites the metadata file. -/
def Meta.enable (fs : FS) (m : Meta) : FS :=
  fs.set (metaFilePath m.Name) (.present .regular (.metaData m.Name true))

/-- Modelled from the spec: Meta.disable clears the Enabled flag and
rewrites the metadata file. -/
def Meta.disable (fs : FS) (m : Meta) : FS :=
  fs.set (metaFilePath m.Name) (.present .regular (.metaData m.Name false))

/-- Modelled from the spec: Meta.imageName returns the absolute path of
the installed image copy. -/
def Meta.imageName (m : Meta) : Path :=
  imageCopyPath m.Name

/-- Install (lines 26 to 57 of binary.go): load the source image, reject
it if it is not a valid plugin, resolve the effective name, build the
fresh record and delegate persistence to Meta.install.  On failure the
file system is returned unchanged, since the source returns before any
write. -/
def Install (fs : FS) (sifPath name : Path) : FS × Except PluginError Unit :=
  match loadContainer fs sifPath with
  | .error e => (fs, .error e)
  | .ok sifFile =>
    if !(isPluginFile sifFile) then (fs, .error .notAPlugin)
    else
      let m := freshMeta name (getManifest sifFile).Name
      (Meta.install fs m sifFile, .ok ())

/-- Uninstall (lines 61 to 72 of binary.go): resolve the record by name
and delegate removal to it; a failing lookup is returned as is. -/
def Uninstall (fs : FS) (name : Path) : FS × Except PluginError Unit :=
  match loadMetaByName fs name with
  | .error e => (fs, .error e)
  | .ok meta => (Meta.uninstall fs meta, .ok ())

/-- The glob step of List (lines 77 to 81 of binary.go): the paths whose
directory entry exists and whose full path matches the fixed one-level
pattern rootDir slash star dot meta. -/
def globMeta : FS → List Path
  | [] => []
  | (q, e) :: rest =>
    if e ≠ FSEntry.absent ∧ MetaPatternP q then q :: globMeta rest
    else globMeta rest

/-- The per-entry body of the List loop (lines 84 to 102 of binary.go):
stat the candidate and skip it when stat fails, when it is not a regular
file, or when it fails to parse; otherwise yield the parsed record. -/
def listStep (fs : FS) (entry : Path) : Option Meta :=
  match fs.get entry with
  | .absent => none
  | .denied => none
  | .present .irregular _ => none
  | .present .regular _ =>
    match loadMetaByFilename fs entry with
    | .error _ => none
    | .ok meta => some meta

/-- The combined outcome of the per-entry checks of the List loop on one
file-system entry: a record is produced exactly for a statable regular
file holding a well-formed serialized record, and every other entry is
skipped. -/
def parseEntry : FSEntry → Option Meta
  | .present .regular (.metaData n e) => some ⟨n, e⟩
  | _ => none

/-- List (lines 76 to 105 of binary.go): glob the metadata candidates
under the registry root and collect every record that survives the
per-entry checks; per-entry failures are skipped, never propagated.
The glob itself cannot fail on the fixed well-formed pattern, so the
result is always a nil error. -/
def ListPlugins (fs : FS) : Except PluginError (List Meta) :=
  Except.ok ((globMeta fs).filterMap (listStep fs))

/-- Enable (lines 108 to 124 of binary.go): resolve by name, return nil
with only an informational note if the record is already enabled,
otherwise flip and persist. -/
def Enable (fs : FS) (name : Path) : FS × Except PluginError Unit :=
  match loadMetaByName fs name with
  | .error e => (fs, .error e)
  | .ok meta =>
    if meta.Enabled then (fs, .ok ())
    else (Meta.enable fs meta, .ok ())

/-- Disable (lines 127 to 143 of binary.go): resolve by name, return nil
with only an informational note if the record is already disabled,
otherwise flip and persist. -/
def Disable (fs : FS) (name : Path) : FS × Except PluginError Unit :=
  match loadMetaByName fs name with
  | .error e => (fs, .error e)
  | .ok meta =>
    if meta.Enabled then (Meta.disable fs meta, .ok ())
    else (fs, .ok ())

/-- The resolution phase of Inspect (lines 156 to 175 of binary.go):
stat the argument; when stat succeeds the argument itself is the image
path; when stat fails with does-not-exist the argument is resolved as an
installed plugin name and replaced by the image-copy path of that
plugin; any other stat failure is returned without name resolution. -/
def inspectResolve (fs : FS) (name : Path) : Except PluginError Path :=
  match fs.get name with
  | .absent =>
    match loadMetaByName fs name with
    | .error e => .error e
    | .ok meta => .ok meta.imageName
  | .denied => .error .ioError
  | .present _ _ => .ok name

/-- The image phase of Inspect (lines 179 to 194 of binary.go): load the
resolved path as a container image, reject it if it is not a valid
plugin, and return the embedded manifest; every error path carries the
zero-value manifest. -/
def inspectImage (fs : FS) (p : Path) : Manifest × Except PluginError Unit :=
  match loadContainer fs p with
  | .error e => (zeroManifest, .error e)
  | .ok fimg =>
    if !(isPluginFile fimg) then (zeroManifest, .error .notAPlugin)
    else (getManifest fimg, .ok ())

/-- Inspect (lines 149 to 195 of binary.go): resolve the argument to an
image path, then validate and read the manifest as in Install. -/
def Inspect (fs : FS) (name : Path) : Manifest × Except PluginError Unit :=
  match inspectResolve fs name with
  | .error e => (zeroManifest, .error e)
  | .ok p => inspectImage fs p

/-!
The identity component: pluginIDFromName (lines 208 to 211 of binary.go)
is the lowercase hexadecimal rendering of the SHA-256 digest of the
UTF-8 bytes of the name.  The SHA-256 function below is the standard
FIPS 180-4 algorithm as implemented by crypto/sha256, over natural
numbers reduced modulo two to the thirty-two.
-/

/-- Two to the thirty-two, the word modulus of SHA-256. -/
def w32 : Nat := 4294967296

/-- Right rotation of a 32-bit word by n positions. -/
def rotr32 (n x : Nat) : Nat := (x / 2 ^ n + x % 2 ^ n * 2 ^ (32 - n)) % w32

/-- Right shift of a 32-bit word by n positions. -/
def shr32 (n x : Nat) : Nat := x / 2 ^ n

/-- The choose function of SHA-256. -/
def ch (x y z : Nat) : Nat := (x &&& y) ^^^ ((x ^^^ (w32 - 1)) &&& z)

/-- The majority function of SHA-256. -/
def maj (x y z : Nat) : Nat := (x &&& y) ^^^ (x &&& z) ^^^ (y &&& z)

/-- The big Sigma-0 compression function. -/
def bigSigma0 (x : Nat) : Nat := rotr32 2 x ^^^ rotr32 13 x ^^^ rotr32 22 x

/-- The big Sigma-1 compression function. -/
def bigSigma1 (x : Nat) : Nat := rotr32 6 x ^^^ rotr32 11 x ^^^ rotr32 25 x

/-- The small sigma-0 message-schedule function. -/
def smallSigma0 (x : Nat) : Nat := rotr32 7 x ^^^ rotr32 18 x ^^^ shr32 3 x

/-- The small sigma-1 message-schedule function. -/
def smallSigma1 (x : Nat) : Nat := rotr32 17 x ^^^ rotr32 19 x ^^^ shr32 10 x

/-- The 64 round constants of SHA-256 (section 4.2.2 of FIPS 180-4),
written in decimal. -/
def sha256K : List Nat :=
  [1116352408, 1899447441, 3049323471, 3921009573,
   961987163, 1508970993, 2453635748, 2870763221,
   3624381080, 310598401, 607225278, 1426881987,
   1925078388, 2162078206, 2614888103, 3248222580,
   3835390401, 4022224774, 264347078, 604807628,
   770255983, 1249150122, 1555081692, 1996064986,
   2554220882, 2821834349, 2952996808, 3210313671,
   3336571891, 3584528711, 113926993, 338241895,
   666307205, 773529912, 1294757372, 1396182291,
   1695183700, 1986661051, 2177026350, 2456956037,
   2730485921, 2820302411, 3259730800, 3345764771,
   3516065817, 3600352804, 4094571909, 275423344,
   430227734, 506948616, 659060556, 883997877,
   958139571, 1322822218, 1537002063, 1747873779,
   1955562222, 2024104815, 2227730452, 2361852424,
   2428436474, 2756734187, 3204031479, 3329325298]

/-- The eight-word working state of SHA-256. -/
structure H8 where
  a : Nat
  b : Nat
  c : Nat
  d : Nat
  e : Nat
  f : Nat
  g : Nat
  h : Nat

/-- The initial hash value of SHA-256 (section 5.3.3 of FIPS 180-4),
written in decimal. -/
def initH : H8 :=
  ⟨1779033703, 3144134277, 1013904242, 2773480762,
   1359893119, 2600822924, 528734635, 1541459225⟩

/-- One compression round; the argument kw pairs the round constant with
the scheduled message word. -/
def sha256Round (st : H8) (kw : Nat × Nat) : H8 :=
  let t1 := (st.h + bigSigma1 st.e + ch st.e st.f st.g + kw.1 + kw.2) % w32
  let t2 := (bigSigma0 st.a + maj st.a st.b st.c) % w32
  { a := (t1 + t2) % w32, b := st.a, c := st.b, d := st.c,
    e := (st.d + t1) % w32, f := st.e, g := st.f, h := st.g }

/-- Extend the sixteen block words by k further scheduled words. -/
def extendSchedule (w : List Nat) : Nat → List Nat
  | 0 => w
  | k + 1 =>
    extendSchedule
      (w ++ [(smallSigma1 (w.getD (w.length - 2) 0) + w.getD (w.length - 7) 0 +
              smallSigma0 (w.getD (w.length - 15) 0) + w.getD (w.length - 16) 0) % w32])
      k

/-- Process one sixteen-word block: schedule, 64 rounds, and addition of
the previous state. -/
def processBlock (st : H8) (block : List Nat) : H8 :=
  let w := extendSchedule block 48
  let r := (sha256K.zip w).foldl sha256Round st
  { a := (st.a + r.a) % w32, b := (st.b + r.b) % w32,
    c := (st.c + r.c) % w32, d := (st.d + r.d) % w32,
    e := (st.e + r.e) % w32, f := (st.f + r.f) % w32,
    g := (st.g + r.g) % w32, h := (st.h + r.h) % w32 }

/-- The eight-byte big-endian encoding of the 64-bit message bit
length. -/
def be64 (n : Nat) : List Nat :=
  [n / 2 ^ 56 % 256, n / 2 ^ 48 % 256, n / 2 ^ 40 % 256, n / 2 ^ 32 % 256,
   n / 2 ^ 24 % 256, n / 2 ^ 16 % 256, n / 2 ^ 8 % 256, n % 256]

/-- SHA-256 padding: the byte 128, zeros up to 56 modulo 64, and the
bit length. -/
def padMessage (msg : List Nat) : List Nat :=
  msg ++ 128 :: (List.replicate ((119 - msg.length % 64) % 64) 0 ++ be64 (msg.length * 8 % 2 ^ 64))

/-- Big-endian grouping of bytes into 32-bit words. -/
def bytesToWords : List Nat → List Nat
  | b0 :: b1 :: b2 :: b3 :: rest =>
    (b0 * 16777216 + b1 * 65536 + b2 * 256 + b3) :: bytesToWords rest
  | _ => []

/-- Grouping of the word stream into sixteen-word blocks. -/
def chunk16 : List Nat → List (List Nat)
  | w0 :: w1 :: w2 :: w3 :: w4 :: w5 :: w6 :: w7 ::
    w8 :: w9 :: w10 :: w11 :: w12 :: w13 :: w14 :: w15 :: rest =>
    [w0, w1, w2, w3, w4, w5, w6, w7, w8, w9, w10, w11, w12, w13, w14, w15]
      :: chunk16 rest
  | _ => []

/-- The four big-endian bytes of a 32-bit word. -/
def wordBytes (w : Nat) : List Nat :=
  [w / 16777216 % 256, w / 65536 % 256, w / 256 % 256, w % 256]

/-- The 32 digest bytes of a final state. -/
def digestBytes (st : H8) : List Nat :=
  wordBytes st.a ++ wordBytes st.b ++ wordBytes st.c ++ wordBytes st.d ++
  wordBytes st.e ++ wordBytes st.f ++ wordBytes st.g ++ wordBytes st.h

/-- SHA-256 of a byte sequence, as computed by crypto/sha256. -/
def sha256 (msg : List Nat) : List Nat :=
  digestBytes ((chunk16 (bytesToWords (padMessage msg))).foldl processBlock initH)

/-- The UTF-8 encoding of one character. -/
def utf8EncodeChar (c : Char) : List Nat :=
  let n := c.toNat
  if n < 128 then [n]
  else if n < 2048 then [192 + n / 64, 128 + n % 64]
  else if n < 65536 then [224 + n / 4096, 128 + n / 64 % 64, 128 + n % 64]
  else [240 + n / 262144, 128 + n / 4096 % 64, 128 + n / 64 % 64, 128 + n % 64]

/-- The UTF-8 bytes of a string, the input that Go feeds to the hash
when converting a string to a byte slice. -/
def utf8Bytes (s : String) : List Nat :=
  s.data.flatMap utf8EncodeChar

/-- One lowercase hexadecimal digit. -/
def hexDigit (n : Nat) : Char :=
  if n < 10 then Char.ofNat (48 + n) else Char.ofNat (87 + n)

/-- The two lowercase hexadecimal digits of one byte, as printed by the
percent-x format verb. -/
def byteHex (b : Nat) : List Char :=
  [hexDigit (b / 16 % 16), hexDigit (b % 16)]

/-- pluginIDFromName (lines 208 to 211 of binary.go): the lowercase
hexadecimal rendering of the SHA-256 digest of the UTF-8 bytes of the
name. -/
def pluginIDFromName (name : String) : String :=
  String.mk ((sha256 (utf8Bytes name)).flatMap byteHex)

/-!
Helper lemmas about the file-system model and the List scan.
-/

/-- Reading back the path just written returns the written entry. -/
theorem FS.get_set_self (fs : FS) (p : Path) (e : FSEntry) :
    (FS.set fs p e).get p = e := by
  simp [FS.set, FS.get]

/-- Removing one path leaves every other path unchanged. -/
theorem FS.get_remove_ne (fs : FS) (p q : Path) (h : q ≠ p) :
    (FS.remove fs p).get q = fs.get q := by
  induction fs with
  | nil => rfl
  | cons a rest ih =>
    obtain ⟨r, er⟩ := a
    show (if r = p then FS.remove rest p else (r, er) :: FS.remove rest p).get q
        = if r = q then er else FS.get rest q
    by_cases hrp : r = p
    · rw [if_pos hrp, if_neg (show ¬ r = q from fun hq => h (hrp ▸ hq).symm)]
      exact ih
    · rw [if_neg hrp]
      show (if r = q then er else (FS.remove rest p).get q)
          = if r = q then er else FS.get rest q
      by_cases hrq : r = q
      · rw [if_pos hrq, if_pos hrq]
      · rw [if_neg hrq, if_neg hrq]
        exact ih

/-- Writing one path leaves every other path unchanged. -/
theorem FS.get_set_ne (fs : FS) (p q : Path) (e : FSEntry) (h : q ≠ p) :
    (FS.set fs p e).get q = fs.get q := by
  show (if p = q then e else (FS.remove fs p).get q) = fs.get q
  rw [if_neg (show ¬ p = q from fun hq => h hq.symm)]
  exact FS.get_remove_ne fs p q h

/-- A path whose lookup is not absent is bound in the list. -/
theorem FS.get_mem (fs : FS) (q : Path) :
    fs.get q = .absent ∨ (q, fs.get q) ∈ fs := by
  induction fs with
  | nil => exact Or.inl rfl
  | cons a rest ih =>
    obtain ⟨r, er⟩ := a
    by_cases hrq : r = q
    · subst hrq
      right
      simp [FS.get]
    · simp only [FS.get, if_neg hrq]
      rcases ih with h | h
      · exact Or.inl h
      · exact Or.inr (List.mem_cons_of_mem _ h)

/-- The stat, regular-file and parse checks of the List loop body reduce
to parseEntry on the stored entry. -/
theorem listStep_eq_parseEntry (fs : FS) (p : Path) :
    listStep fs p = parseEntry (fs.get p) := by
  cases h : fs.get p with
  | absent => simp [listStep, h, parseEntry]
  | denied => simp [listStep, h, parseEntry]
  | present k c =>
    cases k with
    | irregular => simp [listStep, h, parseEntry]
    | regular => cases c <;> simp [listStep, loadMetaByFilename, h, parseEntry]

/-- Glob candidates of a file system with one path removed never name
the removed path. -/
theorem mem_glob_remove (fs : FS) (p q : Path)
    (h : q ∈ globMeta (FS.remove fs p)) : q ≠ p := by
  induction fs with
  | nil => simp [FS.remove, globMeta] at h
  | cons a rest ih =>
    obtain ⟨r, er⟩ := a
    by_cases hrp : r = p
    · subst hrp
      simp only [FS.remove, if_pos rfl] at h
      exact ih h
    · simp only [FS.remove, if_neg hrp, globMeta] at h
      split at h
      · rcases List.mem_cons.mp h with h1 | h2
        · exact h1 ▸ hrp
        · exact ih h2
      · exact ih h

/-- Overwriting one path with an entry that the List loop skips yields
the same listing as removing the path altogether. -/
theorem listPlugins_set_bad (fs : FS) (p : Path) (e : FSEntry)
    (he : parseEntry e = none) :
    ListPlugins (FS.set fs p e) = ListPlugins (FS.remove fs p) := by
  have hstep : ∀ q ∈ globMeta (FS.remove fs p),
      listStep (FS.set fs p e) q = listStep (FS.remove fs p) q := by
    intro q hq
    have hqp := mem_glob_remove fs p q hq
    rw [listStep_eq_parseEntry, listStep_eq_parseEntry,
      FS.get_set_ne fs p q e hqp, ← FS.get_remove_ne fs p q hqp]
  have hself : listStep (FS.set fs p e) p = none := by
    rw [listStep_eq_parseEntry, FS.get_set_self, he]
  unfold ListPlugins
  congr 1
  have hglob : globMeta (FS.set fs p e)
      = if e ≠ FSEntry.absent ∧ MetaPatternP p
        then p :: globMeta (FS.remove fs p)
        else globMeta (FS.remove fs p) := rfl
  rw [hglob]
  by_cases hc : e ≠ FSEntry.absent ∧ MetaPatternP p
  · rw [if_pos hc, List.filterMap_cons, hself]
    exact List.filterMap_congr hstep
  · rw [if_neg hc]
    exact List.filterMap_congr hstep

/-- A name without separator characters yields a metadata file that the
one-level glob pattern of List matches. -/
theorem metaPattern_of_noSep (n : Path) (h : sep ∉ n) :
    MetaPatternP (metaFilePath n) := by
  have hassoc : metaFilePath n = (rootDir ++ [sep]) ++ (n ++ ".meta".data) := by
    simp [metaFilePath, pathFromName, List.append_assoc]
  have hlen : rootDir.length + 1 = (rootDir ++ [sep]).length := by
    simp
  refine ⟨?_, ?_, ?_⟩
  · rw [hassoc]
    exact List.prefix_append _ _
  · rw [hassoc, hlen, List.drop_left]
    intro hc
    rcases List.mem_append.mp hc with hc | hc
    · exact h hc
    · revert hc
      decide
  · rw [hassoc, hlen, List.drop_left]
    exact List.suffix_append _ _

/-- If no scanned candidate can produce a record carrying a given name,
the listing filtered to that name is empty. -/
theorem filter_name_filterMap_nil (l : List Path) (f : Path → Option Meta) (n : Path)
    (h : ∀ q ∈ l, ∀ b : Bool, f q ≠ some ⟨n, b⟩) :
    (l.filterMap f).filter (fun m => decide (m.Name = n)) = [] := by
  induction l with
  | nil => rfl
  | cons a t ih =>
    rw [List.filterMap_cons]
    cases hf : f a with
    | none => exact ih fun q hq => h q (List.mem_cons_of_mem a hq)
    | some m =>
      have hmn : m.Name ≠ n := by
        intro he
        obtain ⟨nm, en⟩ := m
        exact h a (List.mem_cons_self a t) en (by rw [hf]; exact congrArg some (by simp_all))
      rw [List.filter_cons, if_neg (by simp [hmn])]
      exact ih fun q hq => h q (List.mem_cons_of_mem a hq)

/-!
Claim theorems.
-/

/-- Claim C2: Inspect resolves its argument in stat order: an existing
path is used directly as an image with no name resolution; a
non-existing path is resolved as an installed plugin name and replaced
by the image-copy path of that plugin, with NotFound surfaced when no
plugin resolves (in particular when no metadata file exists for the
name); any other stat failure is returned as the underlying input-output
error without name resolution. -/
theorem C2_inspect_resolution (fs : FS) (name : Path) :
    (∀ k c, fs.get name = .present k c → Inspect fs name = inspectImage fs name)
    ∧ (fs.get name = .absent →
        (∀ e, loadMetaByName fs name = .error e →
            Inspect fs name = (zeroManifest, .error e))
        ∧ (∀ m, loadMetaByName fs name = .ok m →
            Inspect fs name = inspectImage fs m.imageName)
        ∧ (fs.get (metaFilePath name) = .absent →
            Inspect fs name = (zeroManifest, .error .notFound)))
    ∧ (fs.get name = .denied → Inspect fs name = (zeroManifest, .error .ioError)) := by
  refine ⟨fun k c h => ?_, fun h => ⟨fun e he => ?_, fun m hm => ?_, fun hm => ?_⟩,
    fun h => ?_⟩
  · simp [Inspect, inspectResolve, h]
  · simp [Inspect, inspectResolve, h, he]
  · simp [Inspect, inspectResolve, h, hm]
  · simp [Inspect, inspectResolve, loadMetaByName, h, hm]
  · simp [Inspect, inspectResolve, h]

/-- Witness for C2: on the empty registry, inspecting a name that is no
file and no installed plugin fails with NotFound. -/
theorem C2_inspect_resolution_witness :
    FS.get [] "nonexistent-name".data = FSEntry.absent
    ∧ Inspect [] "nonexistent-name".data = (zeroManifest, .error .notFound) := by
  refine ⟨rfl, ?_⟩
  exact ((C2_inspect_resolution [] "nonexistent-name".data).2.1 rfl).2.2 rfl

/-- Claim C3: an image that loads but fails the plugin-validity check
makes Install return NotAPlugin with the file system returned exactly as
it was: no metadata file, no image copy and no extracted binary are
written. -/
theorem C3_not_a_plugin_no_mutation (fs : FS) (sifPath name : Path) (man : Manifest)
    (h : fs.get sifPath = .present .regular (.image false man)) :
    Install fs sifPath name = (fs, .error .notAPlugin) := by
  simp [Install, loadContainer, h, isPluginFile]

/-- Witness for C3: a concrete loadable non-plugin image is rejected and
the registry is untouched. -/
theorem C3_not_a_plugin_no_mutation_witness :
    FS.get [("/img.sif".data, .present .regular (.image false ⟨"plug".data⟩))]
        "/img.sif".data = .present .regular (.image false ⟨"plug".data⟩)
    ∧ Install [("/img.sif".data, .present .regular (.image false ⟨"plug".data⟩))]
        "/img.sif".data "plug".data
      = ([("/img.sif".data, .present .regular (.image false ⟨"plug".data⟩))],
         .error .notAPlugin) := by
  refine ⟨rfl, ?_⟩
  exact C3_not_a_plugin_no_mutation _ _ _ ⟨"plug".data⟩ rfl

/-- Claim C4: List never aborts: its result is always a nil error, and a
candidate entry that fails stat, is not a regular file or fails to parse
contributes nothing, leaving exactly the listing obtained with that
entry removed. -/
theorem C4_list_skips_bad_entries (fs : FS) (p : Path) (e : FSEntry)
    (hbad : parseEntry e = none) :
    (∃ ms, ListPlugins fs = Except.ok ms)
    ∧ ListPlugins (FS.set fs p e) = ListPlugins (FS.remove fs p) :=
  ⟨⟨_, rfl⟩, listPlugins_set_bad fs p e hbad⟩

/-- Witness for C4: a corrupt metadata file next to a good one is
skipped and does not hide the good record. -/
theorem C4_list_skips_bad_entries_witness :
    parseEntry (.present .regular .corrupt) = none
    ∧ ((∃ ms, ListPlugins [(metaFilePath "good".data,
            .present .regular (.metaData "good".data true))] = Except.ok ms)
       ∧ ListPlugins (FS.set [(metaFilePath "good".data,
            .present .regular (.metaData "good".data true))]
            (metaFilePath "bad".data) (.present .regular .corrupt))
         = ListPlugins (FS.remove [(metaFilePath "good".data,
            .present .regular (.metaData "good".data true))]
            (metaFilePath "bad".data))) := by
  refine ⟨rfl, ?_⟩
  exact C4_list_skips_bad_entries _ (metaFilePath "bad".data) _ rfl

/-- Claim C5: Enable on an already enabled record and Disable on an
already disabled record succeed with a nil error and leave the file
system untouched. -/
theorem C5_enable_disable_idempotent (fs : FS) (name : Path) (m : Meta)
    (h : loadMetaByName fs name = .ok m) :
    (m.Enabled = true → Enable fs name = (fs, .ok ()))
    ∧ (m.Enabled = false → Disable fs name = (fs, .ok ())) := by
  constructor <;> intro he <;> simp [Enable, Disable, h, he]

/-- Witness for C5: a freshly installed (enabled) record is left alone
by Enable. -/
theorem C5_enable_disable_idempotent_witness :
    loadMetaByName [(metaFilePath "foo".data,
        .present .regular (.metaData "foo".data true))] "foo".data
      = Except.ok ⟨"foo".data, true⟩
    ∧ Enable [(metaFilePath "foo".data,
        .present .regular (.metaData "foo".data true))] "foo".data
      = ([(metaFilePath "foo".data,
          .present .regular (.metaData "foo".data true))], .ok ()) := by
  refine ⟨?_, ?_⟩
  · simp [loadMetaByName, FS.get]
  · exact (C5_enable_disable_idempotent _ "foo".data ⟨"foo".data, true⟩
      (by simp [loadMetaByName, FS.get])).1 rfl

/-- Claim C6: the record built by Install uses the explicit name
whenever one is supplied, falls back to the manifest-declared name only
for the empty name, and is always created enabled. -/
theorem C6_effective_name (name manifestName : Path) :
    (name ≠ [] → (freshMeta name manifestName).Name = name)
    ∧ (name = [] → (freshMeta name manifestName).Name = manifestName)
    ∧ (freshMeta name manifestName).Enabled = true := by
  refine ⟨fun h => ?_, fun h => ?_, rfl⟩ <;> simp [freshMeta, effectiveName, h]

/-- Witness for C6: with an explicit name the manifest name loses, and
without one it wins; the record is enabled either way. -/
theorem C6_effective_name_witness :
    (freshMeta "foo".data "bar".data).Name = "foo".data
    ∧ (freshMeta [] "bar".data).Name = "bar".data
    ∧ (freshMeta "foo".data "bar".data).Enabled = true :=
  ⟨(C6_effective_name "foo".data "bar".data).1 (by decide),
   (C6_effective_name [] "bar".data).2.1 rfl,
   (C6_effective_name "foo".data "bar".data).2.2⟩

/-- Claim C7: once Inspect has resolved a path that opens as a container
image, a failed plugin validation yields NotAPlugin together with the
zero-value manifest, and a successful validation yields the embedded
manifest with a nil error. -/
theorem C7_inspect_validation (fs : FS) (name p : Path)
    (hres : inspectResolve fs name = .ok p) :
    (∀ man, fs.get p = .present .regular (.image false man) →
        Inspect fs name = (zeroManifest, .error .notAPlugin))
    ∧ (∀ man, fs.get p = .present .regular (.image true man) →
        Inspect fs name = (man, .ok ())) := by
  constructor <;> intro man h <;>
    simp [Inspect, hres, inspectImage, loadContainer, h, isPluginFile, getManifest]

/-- Witness for C7: inspecting a direct path to a valid plugin image
returns its manifest. -/
theorem C7_inspect_validation_witness :
    inspectResolve [("/img.sif".data, .present .regular (.image true ⟨"plug".data⟩))]
        "/img.sif".data = Except.ok "/img.sif".data
    ∧ Inspect [("/img.sif".data, .present .regular (.image true ⟨"plug".data⟩))]
        "/img.sif".data = (⟨"plug".data⟩, .ok ()) := by
  refine ⟨rfl, ?_⟩
  exact (C7_inspect_validation
    [("/img.sif".data, .present .regular (.image true ⟨"plug".data⟩))]
    "/img.sif".data "/img.sif".data rfl).2 ⟨"plug".data⟩ rfl

/-- After Meta.enable the record reloads with the Enabled flag set. -/
theorem load_after_enable (fs : FS) (name : Path) (b : Bool) :
    loadMetaByName (Meta.enable fs ⟨name, b⟩) name = .ok ⟨name, true⟩ := by
  simp [loadMetaByName, Meta.enable, FS.get_set_self]

/-- After Meta.disable the record reloads with the Enabled flag
cleared. -/
theorem load_after_disable (fs : FS) (name : Path) (b : Bool) :
    loadMetaByName (Meta.disable fs ⟨name, b⟩) name = .ok ⟨name, false⟩ := by
  simp [loadMetaByName, Meta.disable, FS.get_set_self]

/-- Claim C9: on an installed record, Disable followed by Enable leaves
the Enabled flag set, and Enable followed by Disable leaves it cleared:
the two operations are mutual inverses on the persisted flag. -/
theorem C9_enable_disable_inverse (fs : FS) (name : Path) (b : Bool)
    (h : loadMetaByName fs name = .ok ⟨name, b⟩) :
    loadMetaByName (Enable (Disable fs name).1 name).1 name = .ok ⟨name, true⟩
    ∧ loadMetaByName (Disable (Enable fs name).1 name).1 name = .ok ⟨name, false⟩ := by
  cases b
  · have hd : (Disable fs name).1 = fs := by simp [Disable, h]
    have he : (Enable fs name).1 = Meta.enable fs ⟨name, false⟩ := by
      simp [Enable, h]
    constructor
    · rw [hd, he]
      exact load_after_enable fs name false
    · rw [he]
      have h2 := load_after_enable fs name false
      have hstep : (Disable (Meta.enable fs ⟨name, false⟩) name).1
          = Meta.disable (Meta.enable fs ⟨name, false⟩) ⟨name, true⟩ := by
        simp [Disable, h2]
      rw [hstep]
      exact load_after_disable _ name true
  · have he : (Enable fs name).1 = fs := by simp [Enable, h]
    have hd : (Disable fs name).1 = Meta.disable fs ⟨name, true⟩ := by
      simp [Disable, h]
    constructor
    · rw [hd]
      have h2 := load_after_disable fs name true
      have hstep : (Enable (Meta.disable fs ⟨name, true⟩) name).1
          = Meta.enable (Meta.disable fs ⟨name, true⟩) ⟨name, false⟩ := by
        simp [Enable, h2]
      rw [hstep]
      exact load_after_enable _ name false
    · rw [he, hd]
      exact load_after_disable fs name true

/-- Witness for C9: on a concrete enabled record, the two round trips
end in the expected flag states. -/
theorem C9_enable_disable_inverse_witness :
    loadMetaByName [(metaFilePath "foo".data,
        .present .regular (.metaData "foo".data true))] "foo".data
      = Except.ok ⟨"foo".data, true⟩
    ∧ (loadMetaByName (Enable (Disable [(metaFilePath "foo".data,
          .present .regular (.metaData "foo".data true))] "foo".data).1
          "foo".data).1 "foo".data = .ok ⟨"foo".data, true⟩
       ∧ loadMetaByName (Disable (Enable [(metaFilePath "foo".data,
          .present .regular (.metaData "foo".data true))] "foo".data).1
          "foo".data).1 "foo".data = .ok ⟨"foo".data, false⟩) := by
  refine ⟨?_, ?_⟩
  · simp [loadMetaByName, FS.get]
  · exact C9_enable_disable_inverse _ "foo".data true
      (by simp [loadMetaByName, FS.get])

/-- Claim C10: when the lookup of a name fails, Uninstall, Enable and
Disable all return the lookup error and leave the file system exactly as
it was. -/
theorem C10_lookup_failure_no_mutation (fs : FS) (name : Path) (e : PluginError)
    (h : loadMetaByName fs name = .error e) :
    Uninstall fs name = (fs, .error e)
    ∧ Enable fs name = (fs, .error e)
    ∧ Disable fs name = (fs, .error e) := by
  refine ⟨?_, ?_, ?_⟩ <;> simp [Uninstall, Enable, Disable, h]

/-- Witness for C10: on the empty registry all three operations fail
with NotFound and change nothing. -/
theorem C10_lookup_failure_no_mutation_witness :
    loadMetaByName [] "foo".data = .error .notFound
    ∧ (Uninstall [] "foo".data = ([], .error .notFound)
       ∧ Enable [] "foo".data = ([], .error .notFound)
       ∧ Disable [] "foo".data = ([], .error .notFound)) :=
  ⟨rfl, C10_lookup_failure_no_mutation [] "foo".data .notFound rfl⟩

/-- The digest always consists of exactly 32 bytes, whatever the
message. -/
theorem sha256_length (msg : List Nat) : (sha256 msg).length = 32 := rfl

/-- Hexadecimal rendering doubles the byte count. -/
theorem length_flatMap_byteHex (l : List Nat) :
    (l.flatMap byteHex).length = 2 * l.length := by
  induction l with
  | nil => rfl
  | cons a t ih => simp [List.flatMap_cons, byteHex, ih]; omega

/-- Every character emitted for a byte is a lowercase hexadecimal
digit. -/
theorem mem_byteHex_hex (b : Nat) (c : Char) (h : c ∈ byteHex b) :
    c ∈ "0123456789abcdef".data := by
  have hx : ∀ m : Nat, m < 16 → hexDigit m ∈ "0123456789abcdef".data := by decide
  simp only [byteHex, List.mem_cons, List.not_mem_nil, or_false] at h
  rcases h with h | h <;> subst h
  · exact hx _ (Nat.mod_lt _ (by norm_num))
  · exact hx _ (Nat.mod_lt _ (by norm_num))

/-- A known-answer check of the embedded hash: the identifier of the
name abc is the standard SHA-256 test vector. -/
theorem pluginID_knownAnswer :
    pluginIDFromName "abc"
      = "ba7816bf8f01cfea414140de5dae2223b00361a396177a9cb410ff61f20015ad" := by
  decide

/-- Claim C8: the derived plugin identifier is the 64-character
lowercase hexadecimal encoding of the SHA-256 digest of the UTF-8 name
bytes, and it is a pure, deterministic function of the name. -/
theorem C8_plugin_id (name : String) :
    (pluginIDFromName name).length = 64
    ∧ (pluginIDFromName name).data
        = (sha256 (utf8Bytes name)).flatMap byteHex
    ∧ (∀ c ∈ (pluginIDFromName name).data, c ∈ "0123456789abcdef".data)
    ∧ (∀ other : String, name = other →
        pluginIDFromName name = pluginIDFromName other) := by
  refine ⟨?_, rfl, ?_, fun other h => h ▸ rfl⟩
  · show ((sha256 (utf8Bytes name)).flatMap byteHex).length = 64
    rw [length_flatMap_byteHex, sha256_length]
  · intro c hc
    have hc2 : c ∈ (sha256 (utf8Bytes name)).flatMap byteHex := hc
    rcases List.mem_flatMap.mp hc2 with ⟨b, _, hcb⟩
    exact mem_byteHex_hex b c hcb

/-- Witness for C8: the identifier of a concrete name has length 64 and
equal names yield equal identifiers. -/
theorem C8_plugin_id_witness :
    (pluginIDFromName "example").length = 64
    ∧ pluginIDFromName "example" = pluginIDFromName "example" :=
  ⟨(C8_plugin_id "example").1, (C8_plugin_id "example").2.2.2 "example" rfl⟩

/-- Counterexample to claim C1 as stated: for the separator-carrying
name a slash b, Install succeeds, yet the one-level scan of List finds
no record at all, because the metadata file sits below a subdirectory of
the registry root. -/
theorem C1_counterexample :
    (Install [("/img.sif".data, .present .regular (.image true ⟨"plug".data⟩))]
        "/img.sif".data "a/b".data).2 = Except.ok ()
    ∧ ListPlugins (Install [("/img.sif".data,
        .present .regular (.image true ⟨"plug".data⟩))]
        "/img.sif".data "a/b".data).1 = Except.ok [] := by
  exact ⟨rfl, rfl⟩

/-- Installing a record whose name has no separator into a registry that
holds no other record under that name makes the subsequent scan list
exactly that record. -/
theorem listInstall_aux (fs : FS) (n : Path) (src : Content)
    (hsep : sep ∉ n)
    (hsrc : parseEntry (FSEntry.present FileKind.regular src) = none)
    (hclean : ∀ pe ∈ fs, ∀ b : Bool,
        parseEntry pe.2 = some ⟨n, b⟩ → pe.1 = metaFilePath n) :
    ∃ ms, ListPlugins (Meta.install fs ⟨n, true⟩ src) = Except.ok ms
      ∧ ms.filter (fun m => decide (m.Name = n)) = [⟨n, true⟩] := by
  let fs1 := FS.set fs (imageCopyPath n) (.present .regular src)
  let fs2 := FS.set fs1 (binaryObjectPath n) (.present .regular .binaryObject)
  let fs3 := FS.set fs2 (configFilePath n) (.present .regular .configFile)
  have hfs : Meta.install fs ⟨n, true⟩ src
      = FS.set fs3 (metaFilePath n)
          (FSEntry.present FileKind.regular (Content.metaData n true)) := rfl
  have hpat : MetaPatternP (metaFilePath n) := metaPattern_of_noSep n hsep
  have hglob : globMeta (FS.set fs3 (metaFilePath n)
        (FSEntry.present FileKind.regular (Content.metaData n true)))
      = if (FSEntry.present FileKind.regular (Content.metaData n true)) ≠ FSEntry.absent
          ∧ MetaPatternP (metaFilePath n)
        then metaFilePath n :: globMeta (FS.remove fs3 (metaFilePath n))
        else globMeta (FS.remove fs3 (metaFilePath n)) := rfl
  have hhead : listStep (FS.set fs3 (metaFilePath n)
        (FSEntry.present FileKind.regular (Content.metaData n true))) (metaFilePath n)
      = some ⟨n, true⟩ := by
    rw [listStep_eq_parseEntry, FS.get_set_self]
    rfl
  have htail : ((globMeta (FS.remove fs3 (metaFilePath n))).filterMap
        (listStep (FS.set fs3 (metaFilePath n)
          (FSEntry.present FileKind.regular (Content.metaData n true))))).filter
        (fun m => decide (m.Name = n)) = [] := by
    apply filter_name_filterMap_nil
    intro q hq b hstep
    have hqp : q ≠ metaFilePath n := mem_glob_remove fs3 (metaFilePath n) q hq
    rw [listStep_eq_parseEntry, FS.get_set_ne fs3 (metaFilePath n) q _ hqp] at hstep
    by_cases h3 : q = configFilePath n
    · have hg : fs3.get q = FSEntry.present FileKind.regular Content.configFile := by
        rw [h3]
        exact FS.get_set_self fs2 _ _
      rw [hg] at hstep
      exact absurd hstep (by simp [parseEntry])
    · have hq3 : fs3.get q = fs2.get q := FS.get_set_ne fs2 _ q _ h3
      rw [hq3] at hstep
      by_cases h2 : q = binaryObjectPath n
      · have hg : fs2.get q = FSEntry.present FileKind.regular Content.binaryObject := by
          rw [h2]
          exact FS.get_set_self fs1 _ _
        rw [hg] at hstep
        exact absurd hstep (by simp [parseEntry])
      · have hq2 : fs2.get q = fs1.get q := FS.get_set_ne fs1 _ q _ h2
        rw [hq2] at hstep
        by_cases h1 : q = imageCopyPath n
        · have hg : fs1.get q = FSEntry.present FileKind.regular src := by
            rw [h1]
            exact FS.get_set_self fs _ _
          rw [hg, hsrc] at hstep
          exact Option.noConfusion hstep
        · have hq1 : fs1.get q = fs.get q := FS.get_set_ne fs _ q _ h1
          rw [hq1] at hstep
          rcases FS.get_mem fs q with habs | hmem
          · rw [habs] at hstep
            exact absurd hstep (by simp [parseEntry])
          · exact hqp (hclean (q, fs.get q) hmem b hstep)
  rw [hfs]
  refine ⟨_, rfl, ?_⟩
  rw [hglob, if_pos ⟨by simp, hpat⟩]
  simp only [List.filterMap_cons, hhead]
  rw [List.filter_cons, if_pos (by simp), htail]

/-- Claim C1 (amended): for every valid plugin image and every chosen
name whose effective name contains no path-separator character,
installed into a registry holding no other record under that name,
Install followed by List yields exactly one record whose Name equals the
effective name and whose Enabled flag is true; the one-level scan finds
the metadata file that Install wrote.  (For names containing a
separator, the claim as stated fails, see the counterexample.) -/
theorem C1_install_then_list (fs : FS) (sifPath name : Path) (man : Manifest)
    (himg : fs.get sifPath = .present .regular (.image true man))
    (hsep : sep ∉ effectiveName name man.Name)
    (hclean : ∀ pe ∈ fs, ∀ b : Bool,
        parseEntry pe.2 = some ⟨effectiveName name man.Name, b⟩ →
        pe.1 = metaFilePath (effectiveName name man.Name)) :
    (Install fs sifPath name).2 = Except.ok ()
    ∧ ∃ ms, ListPlugins (Install fs sifPath name).1 = Except.ok ms
        ∧ ms.filter (fun m => decide (m.Name = effectiveName name man.Name))
            = [⟨effectiveName name man.Name, true⟩] := by
  have hinst : Install fs sifPath name
      = (Meta.install fs ⟨effectiveName name man.Name, true⟩ (Content.image true man),
         Except.ok ()) := by
    simp [Install, loadContainer, himg, isPluginFile, getManifest, freshMeta]
  rw [hinst]
  exact ⟨rfl, listInstall_aux fs (effectiveName name man.Name)
    (Content.image true man) hsep rfl hclean⟩

/-- Witness for C1: a concrete separator-free installation is listed
exactly once, enabled, under its effective name. -/
theorem C1_install_then_list_witness :
    FS.get [("/img.sif".data, .present .regular (.image true ⟨"plug".data⟩))]
        "/img.sif".data = .present .regular (.image true ⟨"plug".data⟩)
    ∧ sep ∉ effectiveName "foo".data "plug".data
    ∧ ((Install [("/img.sif".data, .present .regular (.image true ⟨"plug".data⟩))]
          "/img.sif".data "foo".data).2 = Except.ok ()
       ∧ ∃ ms, ListPlugins (Install [("/img.sif".data,
            .present .regular (.image true ⟨"plug".data⟩))]
            "/img.sif".data "foo".data).1 = Except.ok ms
          ∧ ms.filter (fun m => decide (m.Name = effectiveName "foo".data "plug".data))
              = [⟨effectiveName "foo".data "plug".data, true⟩]) := by
  refine ⟨rfl, by decide, ?_⟩
  exact C1_install_then_list
    [("/img.sif".data, .present .regular (.image true ⟨"plug".data⟩))]
    "/img.sif".data "foo".data ⟨"plug".data⟩ rfl (by decide) (by decide)

end Plugin
